import Mathlib

/-!
# Verification of the zk-dpp-royalty-protocol core

Shallow embedding of the commitment, hashing, claim-encoding and proof
orchestration code of the repository (crates `commitments`, `crypto`, and the
edge-agent `commands`/`zk` modules), together with theorems settling the
frozen specification claims.

Modelling conventions:
* Machine bytes are `Nat` values (always < 256 where produced by the code);
  byte strings are `List Nat`.
* BLAKE3 (`blake3` crate, external to this repository) is an abstract
  function parameter `H : Bytes → Bytes`; every theorem is stated for an
  arbitrary `H`, and tamper-resistance results additionally assume `H` is
  injective on the inputs it is given (the mathematical content of collision
  resistance for the finitely many hash calls involved).
* Fallible Rust functions returning `Result` are embedded as `Except`;
  code paths that panic are embedded with an explicit `RustOutcome.panicked`
  constructor so that aborting and returning an error stay distinguishable.
-/

namespace ZkDpp

/-- Byte strings (`Vec<u8>` / `[u8; 32]` values). -/
abbrev Bytes := List Nat

/-- UTF-8 bytes of a string (`str::as_bytes`). Never unfolded by any proof:
strings only enter hashes through this single encoding. -/
def strBytes (s : String) : Bytes := s.toUTF8.toList.map (fun b => b.toNat)

/-! ## `commitments::merkle` (src/crates/commitments/src/merkle.rs) -/

/-- `hash_pair` (merkle.rs lines 158-163): the parent of two nodes is the hash
of their raw 32+32 byte concatenation, left operand first.  Despite the stale
"sorted concatenation" doc comment in the source, no sorting happens. -/
def hash_pair (H : Bytes → Bytes) (left right : Bytes) : Bytes :=
  H (left ++ right)

/-- One iteration of the `while` loop in `MerkleTree::build` (merkle.rs lines
53-68): pair adjacent nodes left-to-right; an odd trailing node is paired with
itself. -/
def nextLevel (H : Bytes → Bytes) : List Bytes → List Bytes
  | [] => []
  | [a] => [hash_pair H a a]
  | a :: b :: rest => hash_pair H a b :: nextLevel H rest

theorem nextLevel_length (H : Bytes → Bytes) :
    ∀ l : List Bytes, (nextLevel H l).length = (l.length + 1) / 2
  | [] => rfl
  | [_] => by simp [nextLevel]
  | _ :: _ :: rest => by
      simp only [nextLevel, List.length_cons, nextLevel_length H rest]
      omega

/-- The `nodes` vector of `MerkleTree::build`: all levels from the leaves up
to the single root node, as built by the source's `while` loop. -/
def buildNodes (H : Bytes → Bytes) (level : List Bytes) : List (List Bytes) :=
  if level.length ≤ 1 then [level]
  else level :: buildNodes H (nextLevel H level)
termination_by level.length
decreasing_by
  rw [nextLevel_length]
  omega

/-- `CommitmentError` (src/crates/commitments/src/lib.rs lines 16-28),
restricted to the variants the embedded code produces. -/
inductive CommitmentError
  | EmptyClaims
  | DepthExceeded (max : Nat)
deriving DecidableEq

/-- `MerkleTree` (merkle.rs lines 14-19). -/
structure MerkleTree where
  nodes : List (List Bytes)
  leaves : List Bytes
deriving DecidableEq

/-- `MerkleProof` (merkle.rs lines 23-30); `indices` entries are the 0/1
left/right flags. -/
structure MerkleProof where
  leaf : Bytes
  path : List Bytes
  indices : List Nat
deriving DecidableEq

/-- `MAX_DEPTH` (merkle.rs line 10). -/
def MAX_DEPTH : Nat := 32

/-- `MerkleTree::build` (merkle.rs lines 38-71).  The source computes the
depth as `(len as f64).log2().ceil() as usize`; this is embedded as
`Nat.clog 2 len`, with which it agrees for every length at which the
comparison against `MAX_DEPTH = 32` can change (the f64 computation is exact
to far better than the distance of `log2 len` to the nearest integer for all
`len` in the relevant range). -/
def MerkleTree.build (H : Bytes → Bytes) (claim_hashes : List Bytes) :
    Except CommitmentError MerkleTree :=
  if claim_hashes.isEmpty then .error .EmptyClaims
  else if Nat.clog 2 claim_hashes.length > MAX_DEPTH then
    .error (.DepthExceeded MAX_DEPTH)
  else .ok { nodes := buildNodes H claim_hashes, leaves := claim_hashes }

/-- `MerkleTree::root` (merkle.rs lines 74-76): first node of the last level.
The source `unwrap`s; on the trees produced by `build` both defaults are
unreachable. -/
def MerkleTree.root (t : MerkleTree) : Bytes :=
  (t.nodes.getLastD []).headD []

/-- The loop of `MerkleTree::prove` (merkle.rs lines 94-112), walking all
levels except the root level with the running index. Returns the sibling path
and the 0/1 position flags. -/
def provePath : List (List Bytes) → Nat → List Bytes × List Nat
  | [], _ => ([], [])
  | [_], _ => ([], [])
  | lvl :: next :: more, i =>
      (lvl.getD (if i % 2 == 1 then i - 1
          else if i + 1 < lvl.length then i + 1 else i) []
        :: (provePath (next :: more) (i / 2)).1,
       (if i % 2 == 1 then 1 else 0) :: (provePath (next :: more) (i / 2)).2)

/-- `MerkleTree::prove` (merkle.rs lines 87-119).  The source `assert!`s
`index < leaf_count()` and aborts otherwise; the embedding is total with a
default, and every theorem only invokes it in bounds. -/
def MerkleTree.prove (t : MerkleTree) (index : Nat) : MerkleProof :=
  let pr := provePath t.nodes index
  { leaf := t.leaves.getD index [], path := pr.1, indices := pr.2 }

/-- The replay fold of `verify_merkle_proof` (merkle.rs lines 143-151):
`index == 0` means the current value is the left operand. The source folds
over `path.iter().zip(indices.iter())`; the double recursion used here agrees
with the zip (both stop at the shorter list, and the caller has already
checked the lengths are equal). -/
def foldPath (H : Bytes → Bytes) : Bytes → List Bytes → List Nat → Bytes
  | cur, [], _ => cur
  | cur, _ :: _, [] => cur
  | cur, sib :: ps, idx :: ks =>
      foldPath H (if idx == 0 then hash_pair H cur sib else hash_pair H sib cur) ps ks

/-- `verify_merkle_proof` (merkle.rs lines 131-154). -/
def verify_merkle_proof (H : Bytes → Bytes) (leaf : Bytes) (path : List Bytes)
    (indices : List Nat) (expected_root : Bytes) : Bool :=
  if path.length != indices.length then false
  else foldPath H leaf path indices == expected_root

/-! ### Structural lemmas about the Merkle engine -/

theorem buildNodes_def (H : Bytes → Bytes) (l : List Bytes) :
    buildNodes H l = if l.length ≤ 1 then [l] else l :: buildNodes H (nextLevel H l) := by
  rw [buildNodes]

theorem buildNodes_head (H : Bytes → Bytes) (l : List Bytes) :
    ∃ more, buildNodes H l = l :: more := by
  rw [buildNodes_def]
  split
  · exact ⟨[], rfl⟩
  · exact ⟨_, rfl⟩

theorem provePath_length :
    ∀ (ns : List (List Bytes)) (i : Nat), (provePath ns i).1.length = (provePath ns i).2.length
  | [], _ => rfl
  | [_], _ => rfl
  | _ :: next :: more, i => by
      simp [provePath, provePath_length (next :: more) (i / 2)]

/-- Node `j` of the next level, when `2*j+1` is a valid index of the current
level: the pair-hash of the two children. -/
theorem nextLevel_getD_odd (H : Bytes → Bytes) :
    ∀ (l : List Bytes) (j : Nat), 2 * j + 1 < l.length →
      (nextLevel H l).getD j [] = hash_pair H (l.getD (2 * j) []) (l.getD (2 * j + 1) [])
  | [], j, hj => by simp at hj
  | [_], j, hj => by simp only [List.length_singleton] at hj; omega
  | a :: b :: rest, 0, _ => by simp [nextLevel]
  | a :: b :: rest, j + 1, hj => by
      have hj2 : 2 * j + 1 < rest.length := by
        simp only [List.length_cons] at hj; omega
      have ih := nextLevel_getD_odd H rest j hj2
      have e1 : 2 * (j + 1) = 2 * j + 1 + 1 := by omega
      have e2 : 2 * (j + 1) + 1 = 2 * j + 1 + 1 + 1 := by omega
      simp only [nextLevel, List.getD_cons_succ, e1, e2, ih]

/-- Node `j` of the next level, when `2*j` is the last valid index of the
current level (odd tail): the node is paired with itself. -/
theorem nextLevel_getD_even_last (H : Bytes → Bytes) :
    ∀ (l : List Bytes) (j : Nat), 2 * j < l.length → ¬ 2 * j + 1 < l.length →
      (nextLevel H l).getD j [] = hash_pair H (l.getD (2 * j) []) (l.getD (2 * j) [])
  | [], j, hj, _ => by simp at hj
  | [_], j, hj, _ => by
      have : j = 0 := by simp at hj; omega
      subst this
      simp [nextLevel]
  | a :: b :: rest, 0, _, hcontra => by
      simp at hcontra
  | a :: b :: rest, j + 1, hj, hj2 => by
      have h1 : 2 * j < rest.length := by
        simp only [List.length_cons] at hj; omega
      have h2 : ¬ 2 * j + 1 < rest.length := by
        simp only [List.length_cons] at hj2; omega
      have ih := nextLevel_getD_even_last H rest j h1 h2
      have e1 : 2 * (j + 1) = 2 * j + 1 + 1 := by omega
      simp only [nextLevel, List.getD_cons_succ, e1, ih]

theorem getLastD_ne_nil {α : Type} (l : List α) (h : l ≠ []) (a b : α) :
    l.getLastD a = l.getLastD b := by
  cases l with
  | nil => cases h rfl
  | cons x xs => rw [List.getLastD_cons, List.getLastD_cons]

/-- The combine step of `prove`, expressed through `verify`'s fold: the sibling
appended by `prove` at a level enters the fold on the side recorded by the
0/1 flag. -/
theorem fold_prove_step (H : Bytes → Bytes) (cur : Bytes) (lvl next : List Bytes)
    (more : List (List Bytes)) (i : Nat) :
    foldPath H cur (provePath (lvl :: next :: more) i).1
        (provePath (lvl :: next :: more) i).2
      = foldPath H
          (if i % 2 = 1 then hash_pair H (lvl.getD (i - 1) []) cur
           else if i + 1 < lvl.length then hash_pair H cur (lvl.getD (i + 1) [])
           else hash_pair H cur (lvl.getD i []))
          (provePath (next :: more) (i / 2)).1
          (provePath (next :: more) (i / 2)).2 := by
  by_cases hpar : i % 2 = 1
  · have hp : (i % 2 == 1) = true := by simp [hpar]
    simp [provePath, foldPath, hp, hpar]
  · have hp : (i % 2 == 1) = false := by simp [hpar]
    by_cases hsib : i + 1 < lvl.length <;>
      simp [provePath, foldPath, hp, hpar, hsib]

theorem step_odd (H : Bytes → Bytes) (l : List Bytes) (i : Nat)
    (hi : i < l.length) (hpar : i % 2 = 1) :
    hash_pair H (l.getD (i - 1) []) (l.getD i []) = (nextLevel H l).getD (i / 2) [] := by
  rw [nextLevel_getD_odd H l (i / 2) (by omega)]
  rw [show 2 * (i / 2) + 1 = i from by omega, show 2 * (i / 2) = i - 1 from by omega]

theorem step_even_sib (H : Bytes → Bytes) (l : List Bytes) (i : Nat)
    (hpar : ¬ i % 2 = 1) (hsib : i + 1 < l.length) :
    hash_pair H (l.getD i []) (l.getD (i + 1) []) = (nextLevel H l).getD (i / 2) [] := by
  rw [nextLevel_getD_odd H l (i / 2) (by omega)]
  rw [show 2 * (i / 2) + 1 = i + 1 from by omega, show 2 * (i / 2) = i from by omega]

theorem step_even_last (H : Bytes → Bytes) (l : List Bytes) (i : Nat)
    (hi : i < l.length) (hpar : ¬ i % 2 = 1) (hsib : ¬ i + 1 < l.length) :
    hash_pair H (l.getD i []) (l.getD i []) = (nextLevel H l).getD (i / 2) [] := by
  rw [nextLevel_getD_even_last H l (i / 2) (by omega) (by omega)]
  rw [show 2 * (i / 2) = i from by omega]

/-- The root of a built tree replays correctly from any in-bounds leaf: the
essence of the `prove`/`verify` round trip, by induction over the levels. -/
theorem replay_buildNodes (H : Bytes → Bytes) (l : List Bytes) (i : Nat)
    (hi : i < l.length) :
    foldPath H (l.getD i []) (provePath (buildNodes H l) i).1
        (provePath (buildNodes H l) i).2
      = ((buildNodes H l).getLastD []).headD [] := by
  rw [buildNodes_def]
  by_cases hlen : l.length ≤ 1
  · rw [if_pos hlen]
    have hzero : i = 0 := by omega
    subst hzero
    cases l with
    | nil => simp at hi
    | cons a rest =>
        have : rest = [] := by
          cases rest with
          | nil => rfl
          | cons x xs => simp at hlen
        subst this
        simp [provePath, foldPath, List.getLastD]
  · rw [if_neg hlen]
    obtain ⟨more, hmore⟩ := buildNodes_head H (nextLevel H l)
    have hnext : i / 2 < (nextLevel H l).length := by
      rw [nextLevel_length]; omega
    have ih := replay_buildNodes H (nextLevel H l) (i / 2) hnext
    rw [hmore] at ih
    rw [hmore]
    have hroot : ((l :: nextLevel H l :: more).getLastD []).headD []
        = ((nextLevel H l :: more).getLastD []).headD [] := by
      rw [List.getLastD_cons, getLastD_ne_nil (nextLevel H l :: more) (by simp) l []]
    rw [hroot, ← ih, fold_prove_step]
    by_cases hpar : i % 2 = 1
    · rw [if_pos hpar, step_odd H l i hi hpar]
    · rw [if_neg hpar]
      by_cases hsib : i + 1 < l.length
      · rw [if_pos hsib, step_even_sib H l i hpar hsib]
      · rw [if_neg hsib, step_even_last H l i hi hpar hsib]
termination_by l.length
decreasing_by
  rw [nextLevel_length]
  omega

/-! ### Tamper resistance of the replay fold -/

/-- When `H` is injective, the replay fold is injective in its accumulator. -/
theorem foldPath_inj (H : Bytes → Bytes) (hH : Function.Injective H) :
    ∀ (ps : List Bytes) (ks : List Nat) (c1 c2 : Bytes),
      foldPath H c1 ps ks = foldPath H c2 ps ks → c1 = c2
  | [], _, _, _, h => by simpa [foldPath] using h
  | _ :: _, [], _, _, h => by simpa [foldPath] using h
  | sib :: ps, k :: ks, c1, c2, h => by
      simp only [foldPath] at h
      have hstep := foldPath_inj H hH ps ks _ _ h
      by_cases hk : (k == 0) = true
      · rw [if_pos hk, if_pos hk] at hstep
        exact List.append_cancel_right (hH hstep)
      · rw [if_neg hk, if_neg hk] at hstep
        exact List.append_cancel_left (hH hstep)

/-- When `H` is injective, replacing any single path entry by a different
hash changes the replay fold's final value. -/
theorem foldPath_set_ne (H : Bytes → Bytes) (hH : Function.Injective H) :
    ∀ (ps : List Bytes) (ks : List Nat) (k : Nat), k < ps.length →
      ps.length = ks.length →
      ∀ (s2 : Bytes), s2 ≠ ps.getD k [] →
      ∀ (cur : Bytes), foldPath H cur (ps.set k s2) ks ≠ foldPath H cur ps ks
  | [], _, k, hk, _, _, _, _ => by simp at hk
  | _ :: ps, [], _, _, hlen, _, _, _ => by simp at hlen
  | sib :: ps, k0 :: ks, 0, _, _, s2, hs, cur => by
      simp only [List.set_cons_zero, List.getD_cons_zero] at hs ⊢
      intro hcontra
      simp only [foldPath] at hcontra
      have heq := foldPath_inj H hH ps ks _ _ hcontra
      by_cases hk : (k0 == 0) = true
      · rw [if_pos hk, if_pos hk] at heq
        exact hs (List.append_cancel_left (hH heq))
      · rw [if_neg hk, if_neg hk] at heq
        exact hs (List.append_cancel_right (hH heq))
  | sib :: ps, k0 :: ks, j + 1, hk, hlen, s2, hs, cur => by
      simp only [List.set_cons_succ, List.getD_cons_succ] at hs ⊢
      simp only [foldPath]
      exact foldPath_set_ne H hH ps ks j (by simpa using hk)
        (by simpa using hlen) s2 hs _

/-! ### Claim C1 -/

/-- Claim C1: for every non-empty leaf list accepted by `build` and every
in-bounds index `i`, the proof returned by `prove i` verifies against the
tree's root; and — for an injective (collision-free on the used inputs) hash —
replacing the proof's leaf, or any single path entry, with a different hash
makes `verify_merkle_proof` return `false`. -/
theorem merkle_round_trip_and_tamper (H : Bytes → Bytes)
    (hH : Function.Injective H) (leaves : List Bytes) (t : MerkleTree)
    (hbuild : MerkleTree.build H leaves = .ok t) (i : Nat)
    (hi : i < leaves.length) :
    verify_merkle_proof H (t.prove i).leaf (t.prove i).path (t.prove i).indices
        t.root = true ∧
    (∀ leaf2, leaf2 ≠ (t.prove i).leaf →
      verify_merkle_proof H leaf2 (t.prove i).path (t.prove i).indices
          t.root = false) ∧
    (∀ k, k < (t.prove i).path.length → ∀ s2, s2 ≠ (t.prove i).path.getD k [] →
      verify_merkle_proof H (t.prove i).leaf ((t.prove i).path.set k s2)
          (t.prove i).indices t.root = false) := by
  have ht : t = { nodes := buildNodes H leaves, leaves := leaves } := by
    unfold MerkleTree.build at hbuild
    split at hbuild
    · cases hbuild
    · split at hbuild
      · cases hbuild
      · cases hbuild
        rfl
  subst ht
  have hlenpk : (provePath (buildNodes H leaves) i).1.length
      = (provePath (buildNodes H leaves) i).2.length := provePath_length _ _
  have hreplay := replay_buildNodes H leaves i hi
  simp only [MerkleTree.prove, MerkleTree.root] at *
  refine ⟨?_, ?_, ?_⟩
  · unfold verify_merkle_proof
    rw [if_neg (by simp [hlenpk])]
    rw [hreplay]
    exact beq_self_eq_true _
  · intro leaf2 hne
    unfold verify_merkle_proof
    rw [if_neg (by simp [hlenpk])]
    rw [beq_eq_false_iff_ne]
    intro hcontra
    rw [← hreplay] at hcontra
    exact hne (foldPath_inj H hH _ _ _ _ hcontra)
  · intro k hk s2 hs
    unfold verify_merkle_proof
    rw [if_neg (by simp [hlenpk])]
    rw [beq_eq_false_iff_ne]
    intro hcontra
    rw [← hreplay] at hcontra
    exact foldPath_set_ne H hH _ _ k hk hlenpk s2 hs _ hcontra

theorem clog2_le_32 (n : Nat) (h : n ≤ 2 ^ 32) : ¬ Nat.clog 2 n > 32 := by
  simp only [not_lt]
  exact (Nat.le_pow_iff_clog_le (by norm_num)).mp h

/-- `build` on a non-empty list within the depth bound succeeds and stores
the level stack and the leaves. -/
theorem build_eval (H : Bytes → Bytes) (l : List Bytes) (hne : l ≠ [])
    (hsmall : l.length ≤ 2 ^ 32) :
    MerkleTree.build H l = .ok { nodes := buildNodes H l, leaves := l } := by
  unfold MerkleTree.build MAX_DEPTH
  rw [if_neg (by simpa using hne), if_neg (clog2_le_32 _ hsmall)]

theorem buildNodes_single (H : Bytes → Bytes) (a : Bytes) :
    buildNodes H [a] = [[a]] := by
  rw [buildNodes_def]
  simp

theorem buildNodes_pair (H : Bytes → Bytes) (a b : Bytes) :
    buildNodes H [a, b] = [[a, b], [H (a ++ b)]] := by
  rw [buildNodes_def]
  simp only [List.length_cons, List.length_nil, nextLevel, hash_pair]
  rw [if_neg (by omega), buildNodes_single]

/-- Witness for C1: the two-leaf tree over the identity hash; its index-0 proof
verifies, and tampering the leaf (to `[2]`) or the single path entry (to `[3]`)
makes verification fail. -/
theorem merkle_round_trip_and_tamper_witness :
    verify_merkle_proof (fun b => b)
        ((MerkleTree.mk [[[0], [1]], [[0, 1]]] [[0], [1]]).prove 0).leaf
        ((MerkleTree.mk [[[0], [1]], [[0, 1]]] [[0], [1]]).prove 0).path
        ((MerkleTree.mk [[[0], [1]], [[0, 1]]] [[0], [1]]).prove 0).indices
        (MerkleTree.mk [[[0], [1]], [[0, 1]]] [[0], [1]]).root = true ∧
    verify_merkle_proof (fun b => b) [2]
        ((MerkleTree.mk [[[0], [1]], [[0, 1]]] [[0], [1]]).prove 0).path
        ((MerkleTree.mk [[[0], [1]], [[0, 1]]] [[0], [1]]).prove 0).indices
        (MerkleTree.mk [[[0], [1]], [[0, 1]]] [[0], [1]]).root = false ∧
    verify_merkle_proof (fun b => b)
        ((MerkleTree.mk [[[0], [1]], [[0, 1]]] [[0], [1]]).prove 0).leaf
        (((MerkleTree.mk [[[0], [1]], [[0, 1]]] [[0], [1]]).prove 0).path.set 0 [3])
        ((MerkleTree.mk [[[0], [1]], [[0, 1]]] [[0], [1]]).prove 0).indices
        (MerkleTree.mk [[[0], [1]], [[0, 1]]] [[0], [1]]).root = false := by
  have hbuild : MerkleTree.build (fun b => b) [[0], [1]]
      = .ok (MerkleTree.mk [[[0], [1]], [[0, 1]]] [[0], [1]]) := by
    rw [build_eval _ _ (by decide) (by decide), buildNodes_pair]
    rfl
  have h := merkle_round_trip_and_tamper (fun b => b) (fun _ _ hab => hab)
    [[0], [1]] (MerkleTree.mk [[[0], [1]], [[0, 1]]] [[0], [1]]) hbuild 0 (by decide)
  exact ⟨h.1, h.2.1 [2] (by decide), h.2.2 0 (by decide) [3] (by decide)⟩

/-! ### Claim C4 -/

/-- Claim C4: the parent of two nodes, everywhere it is formed — in
`hash_pair` itself, in the `build` level loop, and on both sides of
`verify`'s replay — is the hash of the strictly positional concatenation
`left ++ right`; and the operands are not sorted first, as the two orders
give different results already for the identity hash. -/
theorem hash_pair_positional_unsorted (H : Bytes → Bytes) (left right : Bytes) :
    hash_pair H left right = H (left ++ right) ∧
    nextLevel H [left, right] = [H (left ++ right)] ∧
    foldPath H left [right] [0] = H (left ++ right) ∧
    foldPath H right [left] [1] = H (left ++ right) ∧
    hash_pair (fun b => b) [0] [1] ≠ hash_pair (fun b => b) [1] [0] := by
  refine ⟨rfl, by simp [nextLevel, hash_pair], ?_, ?_, by decide⟩
  · simp [foldPath, hash_pair]
  · simp [foldPath, hash_pair]

/-! ### Claim C9 -/

/-- Claim C9: `build` fails with `EmptyClaims` exactly on the empty list,
fails with `DepthExceeded` exactly when the ceiling log2 of the leaf count
exceeds 32 (equivalently: more than `2^32` leaves), succeeds on every other
non-empty list, and a single-leaf tree's root is that leaf's hash. -/
theorem merkle_build_error_conditions (H : Bytes → Bytes) (leaves : List Bytes) :
    (MerkleTree.build H leaves = .error .EmptyClaims ↔ leaves = []) ∧
    (MerkleTree.build H leaves = .error (.DepthExceeded 32) ↔
      leaves ≠ [] ∧ Nat.clog 2 leaves.length > 32) ∧
    (Nat.clog 2 leaves.length > 32 ↔ 2 ^ 32 < leaves.length) ∧
    (leaves ≠ [] → leaves.length ≤ 2 ^ 32 →
      MerkleTree.build H leaves = .ok { nodes := buildNodes H leaves, leaves := leaves }) ∧
    (∀ leaf t, MerkleTree.build H [leaf] = .ok t → t.root = leaf) := by
  have hclog : Nat.clog 2 leaves.length > 32 ↔ 2 ^ 32 < leaves.length := by
    rw [← not_iff_not, not_lt, not_lt]
    exact (Nat.le_pow_iff_clog_le (by norm_num)).symm
  refine ⟨?_, ?_, hclog, build_eval H leaves, ?_⟩
  · unfold MerkleTree.build
    constructor
    · intro h
      by_cases hempty : leaves.isEmpty
      · simpa using hempty
      · rw [if_neg hempty] at h
        split at h <;> cases h
    · intro h
      subst h
      rfl
  · unfold MerkleTree.build MAX_DEPTH
    constructor
    · intro h
      by_cases hempty : leaves.isEmpty
      · rw [if_pos hempty] at h
        cases h
      · rw [if_neg hempty] at h
        refine ⟨by simpa using hempty, ?_⟩
        by_cases hd : Nat.clog 2 leaves.length > 32
        · exact hd
        · rw [if_neg hd] at h
          cases h
    · intro ⟨h1, h2⟩
      rw [if_neg (by simpa using h1), if_pos h2]
  · intro leaf t h
    rw [build_eval H [leaf] (by simp) (by simp)] at h
    cases h
    simp [MerkleTree.root, buildNodes_single]

/-- Witness for C9: the one-leaf list `[[0]]` builds successfully and its
root is the leaf. -/
theorem merkle_build_error_conditions_witness :
    MerkleTree.build (fun b => b) [[0]]
      = .ok { nodes := buildNodes (fun b => b) [[0]], leaves := [[0]] } ∧
    (MerkleTree.mk [[[0]]] [[0]]).root = [0] := by
  refine ⟨(merkle_build_error_conditions (fun b => b) [[0]]).2.2.2.1
    (by decide) (by decide), ?_⟩
  exact (merkle_build_error_conditions (fun b => b) [[0]]).2.2.2.2 [0]
    (MerkleTree.mk [[[0]]] [[0]])
    (by rw [build_eval _ _ (by decide) (by decide), buildNodes_single])

/-! ## Prover adapter (src/apps/edge-agent/src-tauri/src/zk/mod.rs) -/

/-- The all-zero 32-byte padding sentinel `[0u8; 32]`. -/
def zero32 : Bytes := List.replicate 32 0

/-- `bytes_to_toml_array` (zk/mod.rs lines 307-310). -/
def bytes_to_toml_array (bytes : Bytes) : String :=
  "[" ++ String.intercalate ", " (bytes.map toString) ++ "]"

/-- `nested_bytes_to_toml_array` (zk/mod.rs lines 312-319). -/
def nested_bytes_to_toml_array (values : List Bytes) : String :=
  "[" ++ String.intercalate ", " (values.map bytes_to_toml_array) ++ "]"

/-- `u1_array_to_toml` (zk/mod.rs lines 321-324). -/
def u1_array_to_toml (values : List Nat) : String :=
  "[" ++ String.intercalate ", " (values.map toString) ++ "]"

/-- The `while padded.len() < depth { padded.push(zero) }` loops of
`pad_merkle_path` / `pad_merkle_indices` / `pad_substances`: append zero
entries until the target length is reached. -/
def padTo {α : Type} (zero : α) (l : List α) (depth : Nat) : List α :=
  l ++ List.replicate (depth - l.length) zero

/-- `pad_merkle_path` (zk/mod.rs lines 326-335); all four Prover.toml builders
call it with `depth = 8`. -/
def pad_merkle_path (path : List Bytes) (depth : Nat) : Except String String :=
  if path.length > depth then
    .error "Merkle path length exceeds depth"
  else .ok (nested_bytes_to_toml_array (padTo zero32 path depth))

/-- `pad_merkle_indices` (zk/mod.rs lines 337-346). -/
def pad_merkle_indices (indices : List Nat) (depth : Nat) : Except String String :=
  if indices.length > depth then
    .error "Merkle indices length exceeds depth"
  else .ok (u1_array_to_toml (padTo 0 indices depth))

/-! ### Claim C10 -/

/-- Claim C10: with the fixed depth 8 used by every Prover.toml builder, a
path/indices list of length at most 8 is extended to exactly length 8 by
appending all-zero entries, and a longer list is rejected with an error
(never truncated or padded). -/
theorem pad_merkle_fixed_depth (path : List Bytes) (indices : List Nat) :
    (path.length ≤ 8 →
      pad_merkle_path path 8
          = .ok (nested_bytes_to_toml_array
              (path ++ List.replicate (8 - path.length) zero32)) ∧
        (padTo zero32 path 8).length = 8) ∧
    (indices.length ≤ 8 →
      pad_merkle_indices indices 8
          = .ok (u1_array_to_toml
              (indices ++ List.replicate (8 - indices.length) 0)) ∧
        (padTo 0 indices 8).length = 8) ∧
    (path.length > 8 →
      pad_merkle_path path 8 = .error "Merkle path length exceeds depth") ∧
    (indices.length > 8 →
      pad_merkle_indices indices 8 = .error "Merkle indices length exceeds depth") := by
  refine ⟨fun h => ⟨?_, ?_⟩, fun h => ⟨?_, ?_⟩, fun h => ?_, fun h => ?_⟩
  · rw [pad_merkle_path, if_neg (by omega)]
    rfl
  · simp [padTo]
    omega
  · rw [pad_merkle_indices, if_neg (by omega)]
    rfl
  · simp [padTo]
    omega
  · rw [pad_merkle_path, if_pos h]
  · rw [pad_merkle_indices, if_pos h]

/-- Witness for C10: a 3-entry path gains exactly 5 zero entries; a 9-entry
path or indices list is rejected. -/
theorem pad_merkle_fixed_depth_witness :
    (pad_merkle_path [[1], [2], [3]] 8
        = .ok (nested_bytes_to_toml_array
            ([[1], [2], [3]] ++ List.replicate 5 zero32)) ∧
      (padTo zero32 [[1], [2], [3]] 8).length = 8) ∧
    pad_merkle_path (List.replicate 9 [7]) 8
        = .error "Merkle path length exceeds depth" ∧
    pad_merkle_indices [0, 0, 0, 0, 0, 0, 0, 0, 1] 8
        = .error "Merkle indices length exceeds depth" := by
  refine ⟨?_, ?_, ?_⟩
  · exact (pad_merkle_fixed_depth [[1], [2], [3]] []).1 (by decide)
  · exact (pad_merkle_fixed_depth (List.replicate 9 [7]) []).2.2.1 (by decide)
  · exact (pad_merkle_fixed_depth [] [0, 0, 0, 0, 0, 0, 0, 0, 1]).2.2.2 (by decide)

/-! ## Hex encoding and the `crypto` crate boundary -/

/-- Hex digit value of a character (the `hex` crate's accepted alphabet). -/
def hexVal (c : Char) : Option Nat :=
  if '0' ≤ c ∧ c ≤ '9' then some (c.toNat - '0'.toNat)
  else if 'a' ≤ c ∧ c ≤ 'f' then some (c.toNat - 'a'.toNat + 10)
  else if 'A' ≤ c ∧ c ≤ 'F' then some (c.toNat - 'A'.toNat + 10)
  else none

def hexDecodeChars : List Char → Except String Bytes
  | [] => .ok []
  | [_] => .error "OddLength"
  | c1 :: c2 :: rest =>
      match hexVal c1, hexVal c2 with
      | some h1, some h2 =>
          match hexDecodeChars rest with
          | .ok bytes => .ok ((h1 * 16 + h2) :: bytes)
          | .error e => .error e
      | _, _ => .error "InvalidHexCharacter"

/-- `hex::decode` (external `hex` crate): pairs of hex digits to bytes;
odd length or a non-hex character is an error. -/
def hexDecode (s : String) : Except String Bytes :=
  hexDecodeChars s.data

/-- Outcome of running a Rust function: a value, a returned error, or a
process-aborting panic. -/
inductive RustOutcome (α : Type)
  | ok (val : α)
  | err (e : String)
  | panicked (msg : String)
deriving DecidableEq

/-- `commitments::from_hex` (src/crates/commitments/src/lib.rs lines 98-103).
After a successful decode the source runs `arr.copy_from_slice(&bytes)` on a
`[u8; 32]` with no length check; `copy_from_slice` panics when the source
slice length differs from 32. -/
def from_hex (s : String) : RustOutcome Bytes :=
  match hexDecode s with
  | .error e => .err e
  | .ok bytes =>
      if bytes.length = 32 then .ok bytes
      else .panicked "copy_from_slice: source slice length does not match destination"

/-- `crypto::PublicKey` (src/crates/crypto/src/lib.rs lines 48-51): the key is
stored as a hex string and is not revalidated before use. -/
structure PublicKey where
  key : String

/-- `PublicKey::verify` (crypto/src/lib.rs lines 137-148).  The ed25519-dalek
key parsing and signature check is external and abstracted as `ed25519`;
before it runs, the stored hex is decoded and copied into a `[u8; 32]` by
`copy_from_slice` with no length check, which panics on any other length. -/
def PublicKey.verify (ed25519 : Bytes → Bytes → Bytes → RustOutcome Bool)
    (pk : PublicKey) (message : Bytes) (signature : Bytes) : RustOutcome Bool :=
  match hexDecode pk.key with
  | .error e => .err e
  | .ok key_bytes =>
      if key_bytes.length = 32 then ed25519 key_bytes message signature
      else .panicked "copy_from_slice: source slice length does not match destination"

/-! ### Claim C7 -/

/-- Claim C7 is contradicted by the code: `from_hex` on the valid 4-character
hex string "abcd" (2 decoded bytes) panics instead of returning an error, and
`PublicKey::verify` on a stored key "abcd" likewise panics before the ed25519
backend is ever consulted — the spec requires a typed recoverable error
here. -/
theorem from_hex_wrong_length_panics :
    from_hex "abcd"
        = .panicked "copy_from_slice: source slice length does not match destination" ∧
    PublicKey.verify (fun _ _ _ => .ok true) ⟨"abcd"⟩ [] []
        = .panicked "copy_from_slice: source slice length does not match destination" ∧
    hexDecode "abcd" = .ok [171, 205] := by
  refine ⟨rfl, rfl, rfl⟩

/-! ## Binding normalization
(src/apps/edge-agent/src-tauri/src/commands/mod.rs lines 490-509) -/

/-- The character class of `is_hex_32`'s `matches!` arm. -/
def isHexDigitChar (c : Char) : Bool :=
  ('0' ≤ c && c ≤ '9') || ('a' ≤ c && c ≤ 'f') || ('A' ≤ c && c ≤ 'F')

/-- `is_hex_32` (commands/mod.rs lines 490-492).  The source tests the UTF-8
byte length `value.len() == 64`; this embedding tests the character count,
which agrees with the byte count whenever the all-hex-characters test can
succeed (hex characters are one UTF-8 byte each), and on any other string
both versions return `false`. -/
def is_hex_32 (value : String) : Bool :=
  value.length == 64 && value.data.all isHexDigitChar

/-- Rust `str::to_lowercase`, restricted to its ASCII action.  `is_hex_32`
guards every call in the embedded code, so only ASCII strings reach it. -/
def toLowercase (s : String) : String :=
  String.mk (s.data.map Char.toLower)

/-- Lowercase hex digit for a nibble (the `hex` crate's encoding alphabet). -/
def hexDigitChar (n : Nat) : Char :=
  if n < 10 then Char.ofNat (48 + n) else Char.ofNat (97 + n - 10)

/-- `commitments::to_hex` = `hex::encode`: two lowercase hex digits per byte. -/
def to_hex (bytes : Bytes) : String :=
  String.mk ((bytes.map (fun b => [hexDigitChar (b / 16), hexDigitChar (b % 16)])).flatten)

/-- `hash_binding` (commands/mod.rs lines 494-497):
`to_hex(H(format!("{}:{}", prefix, value)))`. -/
def hash_binding (H : Bytes → Bytes) (pre value : String) : String :=
  to_hex (H (strBytes (pre ++ ":" ++ value)))

/-- `normalize_binding` (commands/mod.rs lines 499-505). -/
def normalize_binding (H : Bytes → Bytes) (pre value : String) : String :=
  if is_hex_32 value then toLowercase value else hash_binding H pre value

/-! ### Claim C8 -/

/-- Claim C8: `normalize_binding` returns the lower-cased input unchanged on
64-character hex strings and otherwise the hex encoding of
`H(prefix ++ ":" ++ raw)`; in particular
`normalize_binding "product" "abc123" = to_hex (H "product:abc123")`. -/
theorem normalize_binding_spec (H : Bytes → Bytes) (pre raw : String) :
    (is_hex_32 raw = true → normalize_binding H pre raw = toLowercase raw) ∧
    (is_hex_32 raw = false →
      normalize_binding H pre raw = to_hex (H (strBytes (pre ++ ":" ++ raw)))) ∧
    normalize_binding H "product" "abc123" = to_hex (H (strBytes "product:abc123")) := by
  refine ⟨fun h => ?_, fun h => ?_, ?_⟩
  · rw [normalize_binding, if_pos h]
  · rw [normalize_binding, if_neg (by simp [h]), hash_binding]
  · rw [normalize_binding, if_neg (by decide), hash_binding]
    rfl

/-- Witness for C8: the 64-character hex string of all `A`s is lower-cased in
place, and the non-hex identifier "abc123" is prefix-hashed. -/
theorem normalize_binding_spec_witness :
    normalize_binding (fun b => b) "product"
        "AAAAAAAAAAAAAAAAAAAAAAAAAAAAAAAAAAAAAAAAAAAAAAAAAAAAAAAAAAAAAAAA"
      = toLowercase "AAAAAAAAAAAAAAAAAAAAAAAAAAAAAAAAAAAAAAAAAAAAAAAAAAAAAAAAAAAAAAAA" ∧
    normalize_binding (fun b => b) "product" "abc123"
      = to_hex (strBytes "product:abc123") := by
  refine ⟨(normalize_binding_spec (fun b => b) "product"
      "AAAAAAAAAAAAAAAAAAAAAAAAAAAAAAAAAAAAAAAAAAAAAAAAAAAAAAAAAAAAAAAA").1
      (by decide),
    (normalize_binding_spec (fun b => b) "product" "abc123").2.1 (by decide)⟩

/-! ## JSON values, the canonicalizer and `hash_claim`
(src/crates/commitments/src/lib.rs lines 50-83) -/

/-- A `serde_json::Number` (`PosInt`/`NegInt`/`Float`).  The `f64` payload is
modelled as an exact rational; every numeric literal appearing in the settled
claims is exactly representable in `f64`, where the model coincides with the
machine arithmetic. -/
inductive JNum
  | int (n : Int)
  | float (q : Rat)
deriving DecidableEq

/-- `serde_json::Value`.  Object maps are entry lists; values produced by
serde never carry duplicate keys (the map type deduplicates on insert). -/
inductive Json
  | null
  | bool (b : Bool)
  | num (n : JNum)
  | str (s : String)
  | arr (elems : List Json)
  | obj (entries : List (String × Json))

/-- The key comparison of `sorted.sort_by(|a, b| a.0.cmp(b.0))`.  Rust
compares keys by UTF-8 bytes; Lean's `String` order is by code points, and
UTF-8 byte order agrees with code-point order. -/
def keyLE (p q : String × Json) : Prop := p.1 ≤ q.1

instance : DecidableRel keyLE :=
  fun p q => inferInstanceAs (Decidable (p.1 ≤ q.1))

instance : IsTotal (String × Json) keyLE :=
  ⟨fun p q => le_total p.1 q.1⟩

instance : IsTrans (String × Json) keyLE :=
  ⟨fun _ _ _ h1 h2 => le_trans h1 h2⟩

/-- The key sort of `canonicalize_value`'s object branch.  The source uses
the standard library sort; with duplicate-free keys every correct sort
produces the same list. -/
def sortEntries (l : List (String × Json)) : List (String × Json) :=
  List.insertionSort keyLE l

mutual

/-- `canonicalize_value` (lib.rs lines 56-73): sort object keys at every
nesting level, keep array order.  The source sorts the entries and then
canonicalizes each value; here values are canonicalized first and the result
sorted, which commutes because the sort only inspects keys. -/
def canonicalize_value : Json → Json
  | .null => .null
  | .bool b => .bool b
  | .num n => .num n
  | .str s => .str s
  | .arr xs => .arr (canonList xs)
  | .obj l => .obj (sortEntries (canonEntries l))

def canonList : List Json → List Json
  | [] => []
  | x :: xs => canonicalize_value x :: canonList xs

def canonEntries : List (String × Json) → List (String × Json)
  | [] => []
  | (k, v) :: rest => (k, canonicalize_value v) :: canonEntries rest

end

/-- JSON string escaping of `serde_json::to_string`. -/
def escapeChar (c : Char) : List Char :=
  if c = '"' then ['\\', '"']
  else if c = '\\' then ['\\', '\\']
  else if c.toNat < 32 then
    match c.toNat with
    | 8 => ['\\', 'b']
    | 9 => ['\\', 't']
    | 10 => ['\\', 'n']
    | 12 => ['\\', 'f']
    | 13 => ['\\', 'r']
    | k => ['\\', 'u', '0', '0', hexDigitChar (k / 16), hexDigitChar (k % 16)]
  else [c]

def renderString (s : String) : String :=
  "\"" ++ String.mk (s.data.map escapeChar).flatten ++ "\""

/-- Decimal rendering of a number.  Integers render exactly as the source
does; the float case is a definite stand-in for the source's Ryu
shortest-round-trip formatting, on which no settled claim depends. -/
def numRepr : JNum → String
  | .int n => toString n
  | .float q => toString q

mutual

/-- Compact serialization of `serde_json::to_string` (the final step of
`canonicalize`, lib.rs line 53).  Total, matching the source where
serialization of a `Value` cannot fail. -/
def serialize : Json → String
  | .null => "null"
  | .bool b => if b then "true" else "false"
  | .num n => numRepr n
  | .str s => renderString s
  | .arr xs => "[" ++ String.intercalate "," (serializeList xs) ++ "]"
  | .obj l => "\x7b" ++ String.intercalate "," (serializeEntries l) ++ "\x7d"

def serializeList : List Json → List String
  | [] => []
  | x :: xs => serialize x :: serializeList xs

def serializeEntries : List (String × Json) → List String
  | [] => []
  | (k, v) :: rest => (renderString k ++ ":" ++ serialize v) :: serializeEntries rest

end

/-- `canonicalize` (lib.rs lines 50-54). -/
def canonicalize (j : Json) : String :=
  serialize (canonicalize_value j)

/-- `hash_claim` (lib.rs lines 78-83): hash of the canonical serialization. -/
def hash_claim (H : Bytes → Bytes) (j : Json) : Bytes :=
  H (strBytes (canonicalize j))

/-! ### Equality up to object-key insertion order -/

mutual

/-- Two JSON values that are equal up to the insertion order of object keys,
at any depth.  Object entry lists must be duplicate-key-free, as `serde_json`
maps are. -/
inductive JsonEquiv : Json → Json → Prop
  | null : JsonEquiv .null .null
  | bool (b : Bool) : JsonEquiv (.bool b) (.bool b)
  | num (n : JNum) : JsonEquiv (.num n) (.num n)
  | str (s : String) : JsonEquiv (.str s) (.str s)
  | arr {xs ys : List Json} : JsonSeqEquiv xs ys → JsonEquiv (.arr xs) (.arr ys)
  | obj {l m : List (String × Json)} : (l.map Prod.fst).Nodup →
      JsonEntriesPerm l m → JsonEquiv (.obj l) (.obj m)

/-- Pointwise equivalence of JSON arrays: element order is preserved. -/
inductive JsonSeqEquiv : List Json → List Json → Prop
  | nil : JsonSeqEquiv [] []
  | cons {x y : Json} {xs ys : List Json} : JsonEquiv x y → JsonSeqEquiv xs ys →
      JsonSeqEquiv (x :: xs) (y :: ys)

/-- Permutation of object entries with equivalent values under equal keys
(the constructors mirror `List.Perm`). -/
inductive JsonEntriesPerm : List (String × Json) → List (String × Json) → Prop
  | nil : JsonEntriesPerm [] []
  | cons (k : String) {v w : Json} {l m : List (String × Json)} :
      JsonEquiv v w → JsonEntriesPerm l m →
      JsonEntriesPerm ((k, v) :: l) ((k, w) :: m)
  | swap (p q : String × Json) (l : List (String × Json)) :
      JsonEntriesPerm (p :: q :: l) (q :: p :: l)
  | trans {l m n : List (String × Json)} :
      JsonEntriesPerm l m → JsonEntriesPerm m n → JsonEntriesPerm l n

end

theorem canonEntries_keys :
    ∀ l : List (String × Json), (canonEntries l).map Prod.fst = l.map Prod.fst
  | [] => rfl
  | (k, v) :: rest => by
      simp [canonEntries, canonEntries_keys rest]

/-- Duplicate-free-keyed permutations have a unique key-sorted form. -/
theorem sortEntries_eq_of_perm (l1 l2 : List (String × Json)) (h : l1.Perm l2)
    (hnodup : (l1.map Prod.fst).Nodup) : sortEntries l1 = sortEntries l2 := by
  have hperm : (sortEntries l1).Perm (sortEntries l2) :=
    ((List.perm_insertionSort keyLE l1).trans h).trans
      (List.perm_insertionSort keyLE l2).symm
  have hs1 : List.Sorted keyLE (sortEntries l1) := List.sorted_insertionSort keyLE l1
  have hs2 : List.Sorted keyLE (sortEntries l2) := List.sorted_insertionSort keyLE l2
  have hn1 : ((sortEntries l1).map Prod.fst).Nodup :=
    (((List.perm_insertionSort keyLE l1).map Prod.fst).nodup_iff).mpr hnodup
  have hn2 : ((sortEntries l2).map Prod.fst).Nodup :=
    ((hperm.map Prod.fst).nodup_iff).mp hn1
  have strict : ∀ (s : List (String × Json)), List.Sorted keyLE s →
      (s.map Prod.fst).Nodup → List.Pairwise (fun p q : String × Json => p.1 < q.1) s := by
    intro s hs hn
    have hne : List.Pairwise (fun p q : String × Json => p.1 ≠ q.1) s :=
      List.pairwise_map.mp hn
    exact (hs.and hne).imp (fun hpq => lt_of_le_of_ne hpq.1 hpq.2)
  haveI : IsAntisymm (String × Json) (fun p q : String × Json => p.1 < q.1) :=
    ⟨fun _ _ h1 h2 => ((lt_asymm h1) h2).elim⟩
  exact List.eq_of_perm_of_sorted hperm (strict _ hs1 hn1) (strict _ hs2 hn2)

/-- Simultaneous induction over the three mutually defined equivalence
relations, via the generated mutual recursor: equivalent values have equal
canonical forms, pointwise-equivalent arrays have equal canonical element
lists, and permuted entry lists have permuted canonical entry lists. -/
theorem canonValue_equiv {a b : Json} (h : JsonEquiv a b) :
    canonicalize_value a = canonicalize_value b := by
  refine @JsonEquiv.rec
    (fun a b _ => canonicalize_value a = canonicalize_value b)
    (fun xs ys _ => canonList xs = canonList ys)
    (fun l m _ => (canonEntries l).Perm (canonEntries m))
    rfl (fun _ => rfl) (fun _ => rfl) (fun _ => rfl)
    ?_ ?_ rfl ?_ List.Perm.nil ?_ ?_ ?_ a b h
  · intro xs ys _ ih
    rw [canonicalize_value, canonicalize_value, ih]
  · intro l m hnodup hperm ihperm
    rw [canonicalize_value, canonicalize_value]
    rw [sortEntries_eq_of_perm _ _ ihperm
      (by rw [canonEntries_keys]; exact hnodup)]
  · intro x y xs ys _ _ ihx ihxs
    rw [canonList, canonList, ihx, ihxs]
  · intro k v w l m _ _ ihvw ihrest
    rw [canonEntries, canonEntries, ihvw]
    exact ihrest.cons _
  · intro p q l
    obtain ⟨kp, vp⟩ := p
    obtain ⟨kq, vq⟩ := q
    rw [canonEntries, canonEntries, canonEntries, canonEntries]
    exact List.Perm.swap _ _ _
  · intro l m n _ _ ih1 ih2
    exact ih1.trans ih2

/-! ### Claim C2 -/

/-- Claim C2: `canonicalize` sorts object keys recursively while preserving
array order, so any two JSON values equal up to object-key insertion order at
any depth canonicalize to the same string and hash identically under
`hash_claim`. -/
theorem hash_claim_key_order_independent (H : Bytes → Bytes) (a b : Json)
    (hab : JsonEquiv a b) :
    canonicalize a = canonicalize b ∧ hash_claim H a = hash_claim H b := by
  have h := canonValue_equiv hab
  constructor
  · rw [canonicalize, canonicalize, h]
  · rw [hash_claim, hash_claim, canonicalize, canonicalize, h]

/-- Witness for C2 at the spec's example:
`hash_claim {"a":1,"b":2} = hash_claim {"b":2,"a":1}`. -/
theorem hash_claim_key_order_independent_witness :
    canonicalize (.obj [("a", .num (.int 1)), ("b", .num (.int 2))])
      = canonicalize (.obj [("b", .num (.int 2)), ("a", .num (.int 1))]) ∧
    hash_claim (fun x => x) (.obj [("a", .num (.int 1)), ("b", .num (.int 2))])
      = hash_claim (fun x => x) (.obj [("b", .num (.int 2)), ("a", .num (.int 1))]) :=
  hash_claim_key_order_independent (fun x => x) _ _
    (.obj (by decide) (.swap ("a", .num (.int 1)) ("b", .num (.int 2)) []))

/-! ## Claim value parsing (commands/mod.rs lines 511-554)

The `f64` accessors of `serde_json` are modelled over exact rationals; all
values exercised by the claims are exactly representable in `f64`, where the
model and the machine arithmetic agree. -/

/-- `Value::as_u64`: integer-represented non-negative numbers only (floats
report `None` even when integral). -/
def Json.asU64 : Json → Option Nat
  | .num (.int n) => if 0 ≤ n then some n.toNat else none
  | _ => none

/-- `Value::as_f64`: any number converts (exactly, in this model). -/
def Json.asF64 : Json → Option Rat
  | .num (.int n) => some (n : Rat)
  | .num (.float q) => some q
  | _ => none

def Json.asStr : Json → Option String
  | .str s => some s
  | _ => none

/-- `f64::trunc` on the exact model: truncation toward zero (`Int` division
in Lean rounds toward zero). -/
def ratTrunc (q : Rat) : Int := q.num / (q.den : Int)

/-- `f64::fract` = `self - self.trunc()`. -/
def ratFract (q : Rat) : Rat := q - (ratTrunc q : Rat)

/-- Rust's saturating float-to-`u64` cast (`as u64`): negative values clamp
to 0, values beyond `u64::MAX` clamp to `u64::MAX`, others truncate. -/
def f64ToU64 (q : Rat) : Nat :=
  if q < 0 then 0 else min (ratTrunc q).toNat (2 ^ 64 - 1)

/-- `f64::round` for the non-negative arguments it receives here: round half
away from zero = truncation of `q + 1/2`. -/
def ratRound (q : Rat) : Int := ratTrunc (q + 1 / 2)

/-- `str::parse::<uN>` digit parsing: optional leading `+`, then decimal
digits (the numeric value; the caller checks the width bound). -/
def parseNatDigits (s : String) : Option Nat :=
  if s.startsWith "+" then (s.drop 1).toNat? else s.toNat?

/-- `s.parse::<u32>()` mapped to the source's error message. -/
def parseU32String (s : String) : Except String Nat :=
  match parseNatDigits s with
  | some n => if n < 2 ^ 32 then .ok n else .error "Invalid numeric string"
  | none => .error "Invalid numeric string"

/-- `parse_u32_value` (commands/mod.rs lines 511-524).  Note the `f64` arm:
`u32::try_from(n as u64)` saturates negative values to 0 before the range
check. -/
def parse_u32_value (value : Json) : Except String Nat :=
  match value.asU64 with
  | some n => if n < 2 ^ 32 then .ok n else .error "Value out of range"
  | none =>
      match value.asF64 with
      | some q =>
          if ratFract q = 0 then
            if f64ToU64 q < 2 ^ 32 then .ok (f64ToU64 q)
            else .error "Value out of range"
          else
            match value.asStr with
            | some s => parseU32String s
            | none => .error "Claim value is not a number"
      | none =>
          match value.asStr with
          | some s => parseU32String s
          | none => .error "Claim value is not a number"

/-- `parse_scaled_u32_value` (commands/mod.rs lines 526-539).  In the exact
model every rational is finite, so `scaled.is_finite()` is always true; the
final multiplication of the string fallback wraps modulo `2^32` as release
`u32` arithmetic does. -/
def parse_scaled_u32_value (value : Json) (scale : Nat) : Except String Nat :=
  match value.asF64 with
  | some q =>
      if 0 ≤ q * (scale : Rat) then
        if |q * (scale : Rat) - (ratRound (q * (scale : Rat)) : Rat)| ≤ 1 / 1000000 then
          if min (ratRound (q * (scale : Rat))).toNat (2 ^ 64 - 1) < 2 ^ 32 then
            .ok (min (ratRound (q * (scale : Rat))).toNat (2 ^ 64 - 1))
          else .error "Value out of range"
        else .error "Value has too many decimals"
      else .error "Value has too many decimals"
  | none => (parse_u32_value value).map (fun v => v * scale % 2 ^ 32)

/-! ### Claim C6 -/

/-- Claim C6 is contradicted by the code: `parse_u32_value` on the negative
(hence out-of-range) integral value `-5` returns `Ok(0)` — Rust's saturating
`n as u64` cast silently coerces it to the default 0 instead of reporting a
parse error.  (`parse_scaled_u32_value` does reject the same value with a
typed error, and values above `u32::MAX` are rejected by both.) -/
theorem parse_u32_value_negative_silent_zero :
    parse_u32_value (.num (.int (-5))) = .ok 0 ∧
    parse_scaled_u32_value (.num (.int (-5))) 100
      = .error "Value has too many decimals" ∧
    parse_u32_value (.num (.int 4294967296)) = .error "Value out of range" := by
  have h1 : Json.asU64 (.num (.int (-5))) = none := by norm_num [Json.asU64]
  have h2 : Json.asF64 (.num (.int (-5))) = some (-5 : Rat) := by norm_num [Json.asF64]
  have htr : ratTrunc (-5 : Rat) = -5 := rfl
  have hfr : ratFract (-5 : Rat) = 0 := by norm_num [ratFract, htr]
  have hneg : (-5 : Rat) < 0 := by norm_num
  have hcast : f64ToU64 (-5 : Rat) = 0 := by rw [f64ToU64, if_pos hneg]
  have hscaled : ¬ (0 : Rat) ≤ (-5 : Rat) * ((100 : Nat) : Rat) := by norm_num
  refine ⟨?_, ?_, ?_⟩
  · simp [parse_u32_value, h1, h2, hfr, hcast]
  · simp [parse_scaled_u32_value, h2, hscaled]
  · rfl

/-! ## Claim encoder (commands/mod.rs lines 556-699) -/

/-- `u64::to_be_bytes`: 8 big-endian bytes. -/
def be64 (value : Nat) : Bytes :=
  [value / 2 ^ 56 % 256, value / 2 ^ 48 % 256, value / 2 ^ 40 % 256,
   value / 2 ^ 32 % 256, value / 2 ^ 24 % 256, value / 2 ^ 16 % 256,
   value / 2 ^ 8 % 256, value % 256]

/-- `hash_claim_type` (commands/mod.rs lines 601-603). -/
def hash_claim_type (H : Bytes → Bytes) (claim_type : String) : Bytes :=
  H (strBytes claim_type)

/-- `hash_unit` (commands/mod.rs lines 605-607). -/
def hash_unit (H : Bytes → Bytes) (unit : String) : Bytes :=
  H (strBytes unit)

/-- `hash_claim_value` (commands/mod.rs lines 609-616): the 72-byte buffer
`claim_type_hash(32) ++ value_be64(8) ++ unit_hash(32)`; the fixed-slice
copies are modelled as concatenation of the 32-byte hash values. -/
def hash_claim_value (H : Bytes → Bytes) (claim_type_hash : Bytes)
    (value : Nat) (unit_hash : Bytes) : Bytes :=
  H (claim_type_hash ++ be64 value ++ unit_hash)

/-- `hash_claim_bytes` (commands/mod.rs lines 618-623): 64-byte buffer. -/
def hash_claim_bytes (H : Bytes → Bytes) (claim_type_hash value_hash : Bytes) : Bytes :=
  H (claim_type_hash ++ value_hash)

/-- `hash_cert_window` (commands/mod.rs lines 625-632): 48-byte buffer. -/
def hash_cert_window (H : Bytes → Bytes) (claim_type_hash : Bytes)
    (valid_from valid_until : Nat) : Bytes :=
  H (claim_type_hash ++ be64 valid_from ++ be64 valid_until)

/-- `DOMAIN_SUBSTANCE_PRODUCT = *b"SUBP"` (commands/mod.rs line 597). -/
def DOMAIN_SUBSTANCE_PRODUCT : Bytes := [83, 85, 66, 80]

/-- `DOMAIN_SUBSTANCE_FORBIDDEN = *b"SUBF"` (commands/mod.rs line 598). -/
def DOMAIN_SUBSTANCE_FORBIDDEN : Bytes := [83, 85, 66, 70]

/-- `CARBON_FOOTPRINT_SCALE` (commands/mod.rs line 599). -/
def CARBON_FOOTPRINT_SCALE : Nat := 100

/-- `hash_substance_list` (commands/mod.rs lines 634-656): domain-separated
seed `H(domain ++ claim_type_hash)`, then a running hash over the first
`count` substance ids (the source's loop ignores entries with index ≥
`count`, which is exactly `take count`). -/
def hash_substance_list (H : Bytes → Bytes) (domain : Bytes)
    (claim_type_hash : Bytes) (substances : List Bytes) (count : Nat) : Bytes :=
  (substances.take count).foldl (fun current s => H (current ++ s))
    (H (domain ++ claim_type_hash))

/-- `substance_id_from_str` (commands/mod.rs lines 589-595): 64-hex strings
are lower-cased and decoded (the decode of a validated 64-hex string always
yields 32 bytes, so `unwrap_or` never fires), anything else is hashed. -/
def substance_id_from_str (H : Bytes → Bytes) (value : String) : Bytes :=
  if value.length == 64 && value.data.all isHexDigitChar then
    match from_hex (toLowercase value) with
    | .ok b => b
    | _ => zero32
  else H (strBytes value)

/-- `serde_json::Map::get` on the entry-list model. -/
def lookupKey (entries : List (String × Json)) (k : String) : Option Json :=
  (entries.find? (fun kv => kv.1 == k)).map Prod.snd

/-- The `.get(k1).or_else(|| .get(k2))...` alias chains of
`extract_cert_window`. -/
def lookupFirst (entries : List (String × Json)) : List String → Option Json
  | [] => none
  | k :: ks =>
      match lookupKey entries k with
      | some v => some v
      | none => lookupFirst entries ks

/-- `parse_u64_timestamp` (commands/mod.rs lines 541-554).  The RFC3339
parser is the external `chrono` crate, abstracted as `rfc3339` (seconds since
epoch on success); its `i64`-to-`u64` cast wraps modulo `2^64`. -/
def parse_u64_timestamp (rfc3339 : String → Option Int) (value : Json) :
    Except String Nat :=
  match value.asU64 with
  | some n => .ok n
  | none =>
      match value.asStr with
      | some s =>
          match parseNatDigits s with
          | some n =>
              if n < 2 ^ 64 then .ok n
              else
                match rfc3339 s with
                | some t => .ok (t % 2 ^ 64).toNat
                | none => .error "Invalid timestamp value"
          | none =>
              match rfc3339 s with
              | some t => .ok (t % 2 ^ 64).toNat
              | none => .error "Invalid timestamp value"
      | none => .error "Invalid timestamp value"

/-- `extract_cert_window` (commands/mod.rs lines 556-574). -/
def extract_cert_window (rfc3339 : String → Option Int) (value : Json) :
    Except String (Nat × Nat) :=
  match value with
  | .obj entries =>
      match lookupFirst entries ["valid_from", "validFrom", "not_before", "notBefore"] with
      | none => .error "Missing valid_from"
      | some vf =>
          match lookupFirst entries
              ["valid_until", "validUntil", "expires_at", "expiresAt",
               "not_after", "notAfter"] with
          | none => .error "Missing valid_until"
          | some vu => do
              let a ← parse_u64_timestamp rfc3339 vf
              let b ← parse_u64_timestamp rfc3339 vu
              return (a, b)
  | _ => .error "Certificate claim must be an object"

def stringListOf : List Json → Except String (List String)
  | [] => .ok []
  | .str s :: rest => (stringListOf rest).map (s :: ·)
  | _ :: _ => .error "Array items must be strings"

/-- `parse_string_list` (commands/mod.rs lines 576-587). -/
def parse_string_list (value : Json) : Except String (List String) :=
  match value with
  | .arr items => stringListOf items
  | _ => .error "Expected array"

/-- `storage::Claim`, restricted to the fields `compute_claim_hash` reads
directly; the remaining record fields (ids, evidence, confidence,
timestamps…) enter only through the serde serialization of the whole record
in the generic fallback branch, abstracted below as `claimJson`. -/
structure Claim where
  claim_type : String
  value : Json
  unit : String

/-- `compute_claim_hash` (commands/mod.rs lines 658-699).  The Rust string
`match` is an if-chain here; `claimJson` stands for the derive-generated
serde serialization of the full `Claim` record consumed by the generic
fallback. -/
def compute_claim_hash (H : Bytes → Bytes) (rfc3339 : String → Option Int)
    (claimJson : Claim → Json) (claim : Claim) : Except String Bytes :=
  if claim.claim_type = "recycled_content" then
    match parse_u32_value claim.value with
    | .error e => .error e
    | .ok actual_value =>
        .ok (hash_claim_value H (hash_claim_type H claim.claim_type)
          actual_value (hash_unit H claim.unit))
  else if claim.claim_type = "carbon_footprint" then
    match parse_scaled_u32_value claim.value CARBON_FOOTPRINT_SCALE with
    | .error e => .error e
    | .ok actual_value =>
        .ok (hash_claim_value H (hash_claim_type H claim.claim_type)
          actual_value (hash_unit H claim.unit))
  else if claim.claim_type = "certification" then
    match extract_cert_window rfc3339 claim.value with
    | .error e => .error e
    | .ok (valid_from, valid_until) =>
        .ok (hash_cert_window H (hash_claim_type H claim.claim_type)
          valid_from valid_until)
  else if claim.claim_type = "substance_content" then
    match claim.value with
    | .obj entries =>
        match lookupKey entries "substances" with
        | none => .error "Missing substances list"
        | some sv =>
            match parse_string_list sv with
            | .error e => .error e
            | .ok product_substances =>
                .ok (hash_substance_list H DOMAIN_SUBSTANCE_PRODUCT
                  (hash_claim_type H claim.claim_type)
                  (product_substances.map (substance_id_from_str H))
                  (product_substances.map (substance_id_from_str H)).length)
    | _ => .error "Substance claim must be object"
  else if claim.claim_type = "battery_chemistry"
      ∨ claim.claim_type = "cobalt_origin_country" then
    match claim.value.asStr with
    | none => .error "Claim value must be string"
    | some v =>
        .ok (hash_claim_bytes H (hash_claim_type H claim.claim_type)
          (substance_id_from_str H v))
  else
    .ok (hash_claim H (claimJson claim))

/-! ### Claim C3 -/

/-- Claim C3: for every `recycled_content` claim whose value parses to the
integer `v`, the leaf hash is `H` of the 72-byte buffer
`H("recycled_content") ++ be64(v) ++ H(unit)`. -/
theorem recycled_content_leaf_layout (H : Bytes → Bytes)
    (rfc3339 : String → Option Int) (claimJson : Claim → Json) (claim : Claim)
    (v : Nat) (htype : claim.claim_type = "recycled_content")
    (hparse : parse_u32_value claim.value = .ok v) :
    compute_claim_hash H rfc3339 claimJson claim
      = .ok (H (H (strBytes "recycled_content") ++ be64 v
          ++ H (strBytes claim.unit))) := by
  rw [compute_claim_hash, if_pos htype, hparse, htype]
  rfl

/-- Witness for C3 at the spec's example: value 25, unit "percent", with the
identity hash. -/
theorem recycled_content_leaf_layout_witness :
    compute_claim_hash (fun b => b) (fun _ => none) (fun _ => .null)
        (Claim.mk "recycled_content" (.num (.int 25)) "percent")
      = .ok (strBytes "recycled_content" ++ be64 25 ++ strBytes "percent") :=
  recycled_content_leaf_layout (fun b => b) (fun _ => none) (fun _ => .null)
    (Claim.mk "recycled_content" (.num (.int 25)) "percent") 25 rfl rfl

/-! ## Proof orchestration: `generate_proof` guards
(commands/mod.rs lines 717-992) -/

/-- `storage::Commitment`, restricted to the fields the guard sequence of
`generate_proof` reads; `valid_until` is an epoch timestamp. -/
structure StoredCommitment where
  root : String
  claim_ids : List String
  valid_until : Option Int
  revoked : Bool

/-- `CommandResponse<T>` (commands/mod.rs lines 20-42). -/
structure CommandResponse (α : Type) where
  success : Bool
  data : Option α
  error : Option String

/-- `CommandResponse::ok`. -/
def CommandResponse.ok {α : Type} (a : α) : CommandResponse α :=
  ⟨true, some a, none⟩

/-- `CommandResponse::err`. -/
def CommandResponse.err {α : Type} (e : String) : CommandResponse α :=
  ⟨false, none, some e⟩

/-- Stand-in for the assembled `ProofPackage` record (commands/mod.rs lines
481-488); its construction lies beyond the external-prover call and no
settled claim depends on its fields. -/
structure ProofPackage where
  proof : String
  nonce : String

/-- The `Utc::now() > valid_until` check of the validity-window guard. -/
def isExpired (valid_until : Option Int) (now : Int) : Bool :=
  match valid_until with
  | some vu => decide (vu < now)
  | none => false

/-- `generate_proof` (commands/mod.rs lines 717-992), embedded up to its
guard sequence.  The commitment lookup result (`db.get_commitment`) and the
current time are parameters; everything after the four guards — claim
loading, nonce generation, binding normalization, predicate parsing, leaf
rehashing, Merkle proof construction, the external Noir prover call and
package assembly — is abstracted as `rest`, which is consulted only once all
guards pass.  Guard failures surface exactly as the source's
`Ok(CommandResponse::err(..))`, and lookup errors as in the source's `Err`
arm. -/
def generate_proof (getCommitment : Except String (Option StoredCommitment))
    (now : Int) (claim_index : Nat)
    (rest : StoredCommitment → Except String (CommandResponse ProofPackage)) :
    Except String (CommandResponse ProofPackage) :=
  match getCommitment with
  | .error e => .ok (CommandResponse.err e)
  | .ok none => .ok (CommandResponse.err "Commitment not found")
  | .ok (some commitment) =>
      if commitment.revoked then
        .ok (CommandResponse.err "Commitment has been revoked")
      else if isExpired commitment.valid_until now then
        .ok (CommandResponse.err "Commitment has expired")
      else if claim_index ≥ commitment.claim_ids.length then
        .ok (CommandResponse.err "Invalid claim index")
      else rest commitment

/-! ### Claim C5 -/

/-- Claim C5: `generate_proof` runs its guards in order and stops at the
first failure — missing commitment, set revoked flag, expired validity
window, out-of-range claim index — each yielding an error response with no
package data, without ever consulting the proof-building continuation; in
particular a revoked commitment never satisfies a proof request, whatever the
downstream prover would do. -/
theorem generate_proof_guard_order (now : Int) (ci : Nat)
    (rest : StoredCommitment → Except String (CommandResponse ProofPackage)) :
    (generate_proof (.ok none) now ci rest
        = .ok (CommandResponse.err "Commitment not found")) ∧
    (∀ c : StoredCommitment, c.revoked = true →
      generate_proof (.ok (some c)) now ci rest
        = .ok (CommandResponse.err "Commitment has been revoked")) ∧
    (∀ (c : StoredCommitment) (vu : Int), c.revoked = false →
      c.valid_until = some vu → vu < now →
      generate_proof (.ok (some c)) now ci rest
        = .ok (CommandResponse.err "Commitment has expired")) ∧
    (∀ c : StoredCommitment, c.revoked = false →
      isExpired c.valid_until now = false → ci ≥ c.claim_ids.length →
      generate_proof (.ok (some c)) now ci rest
        = .ok (CommandResponse.err "Invalid claim index")) ∧
    (∀ e : String,
      (CommandResponse.err e : CommandResponse ProofPackage).success = false ∧
      (CommandResponse.err e : CommandResponse ProofPackage).data = none) := by
  refine ⟨rfl, ?_, ?_, ?_, fun e => ⟨rfl, rfl⟩⟩
  · intro c hrev
    rw [generate_proof]
    rw [if_pos hrev]
  · intro c vu hrev hvu hlt
    rw [generate_proof]
    rw [if_neg (by rw [hrev]; exact Bool.false_ne_true),
      if_pos (show isExpired c.valid_until now = true by
        rw [hvu]; simpa [isExpired] using hlt)]
  · intro c hrev hexp hidx
    rw [generate_proof]
    rw [if_neg (by rw [hrev]; exact Bool.false_ne_true),
      if_neg (by rw [hexp]; exact Bool.false_ne_true), if_pos hidx]

/-- Witness for C5: each guard failure exercised on a concrete commitment
record, with a continuation that would otherwise succeed. -/
theorem generate_proof_guard_order_witness :
    (generate_proof (.ok none) 10 0
        (fun _ => .ok (CommandResponse.ok ⟨"p", "n"⟩))
      = .ok (CommandResponse.err "Commitment not found")) ∧
    (generate_proof (.ok (some ⟨"r", ["c1"], none, true⟩)) 10 0
        (fun _ => .ok (CommandResponse.ok ⟨"p", "n"⟩))
      = .ok (CommandResponse.err "Commitment has been revoked")) ∧
    (generate_proof (.ok (some ⟨"r", ["c1"], some 5, false⟩)) 10 0
        (fun _ => .ok (CommandResponse.ok ⟨"p", "n"⟩))
      = .ok (CommandResponse.err "Commitment has expired")) ∧
    (generate_proof (.ok (some ⟨"r", ["c1"], some 99, false⟩)) 10 7
        (fun _ => .ok (CommandResponse.ok ⟨"p", "n"⟩))
      = .ok (CommandResponse.err "Invalid claim index")) := by
  refine ⟨(generate_proof_guard_order 10 0 _).1,
    (generate_proof_guard_order 10 0 _).2.1 _ rfl,
    (generate_proof_guard_order 10 0 _).2.2.1 _ 5 rfl rfl (by decide),
    (generate_proof_guard_order 10 7 _).2.2.2.1 _ rfl (by decide) (by decide)⟩

end ZkDpp
